import Mathlib

/-!
Verification of the interactive selector, filter/rank engine, command-polling
loop and upload size gate of the aws-ssm-connect tool.

Strings are modelled as `List Char`; Go byte strings on the inputs of
interest are sequences of characters, and all the string operations used by
the program (lower-casing, whitespace splitting, substring search,
concatenation) are modelled character-wise below, following the Go
standard-library semantics the code relies on.
-/

namespace AwsSsmConnect

/-- Character-wise lower-casing, modelling `strings.ToLower` (the Go code
only ever compares lowered strings with lowered strings, so the ASCII
mapping of `Char.toLower` is the relevant behaviour). -/
def toLowerStr (s : List Char) : List Char := s.map Char.toLower

/-- Accumulator-based splitter behind `fields`: `cur` is the (reversed)
word currently being read. -/
def fieldsAux : List Char → List Char → List (List Char)
  | cur, [] => if cur = [] then [] else [cur.reverse]
  | cur, c :: cs =>
    if c.isWhitespace then
      if cur = [] then fieldsAux [] cs else cur.reverse :: fieldsAux [] cs
    else fieldsAux (c :: cur) cs

/-- Model of Go `strings.Fields`: the maximal runs of non-whitespace
characters, in order. -/
def fields (s : List Char) : List (List Char) := fieldsAux [] s

/-- Boolean prefix test on character lists. -/
def isPrefixB : List Char → List Char → Bool
  | [], _ => true
  | _ :: _, [] => false
  | a :: as, b :: bs => a = b && isPrefixB as bs

/-- Model of Go `strings.Contains s sub`: `sub` occurs contiguously in `s`. -/
def containsSub : List Char → List Char → Bool
  | [], sub => isPrefixB sub []
  | c :: cs, sub => isPrefixB sub (c :: cs) || containsSub cs sub

/-- An EC2 instance as used by the selector (`selector.Instance`). -/
structure Instance where
  id : List Char
  name : List Char
  privateIP : List Char
  deriving DecidableEq, Repr

/-- The lowered search string of `filterInstances`:
`strings.ToLower(fmt.Sprintf("%s %s %s", inst.ID, inst.Name, inst.PrivateIP))`. -/
def searchStr (inst : Instance) : List Char :=
  toLowerStr (inst.id ++ [' '] ++ inst.name ++ [' '] ++ inst.privateIP)

/-- Model of `matchesAllWords`: every word occurs in `s`. -/
def matchesAllWords (s : List Char) (words : List (List Char)) : Bool :=
  words.all (fun w => containsSub s w)

/-- Model of `filterInstances`: empty query (or a query with no words)
passes the list through; otherwise keep the instances whose lowered search
string contains every lowered query word. -/
def filterInstances (instances : List Instance) (query : List Char) : List Instance :=
  if query = [] then instances
  else
    let words := fields (toLowerStr query)
    if words = [] then instances
    else instances.filter (fun inst => matchesAllWords (searchStr inst) words)

/-- Priority map built by `sortByRecent`, with Go map semantics (a later
occurrence of an id overwrites an earlier one): `prioFrom i rids id` is the
value `priority[id]` after inserting `rids` with 1-based indices starting
at `i + 1`, and `0` when `id` is absent. -/
def prioFrom : Nat → List (List Char) → List Char → Nat
  | _, [], _ => 0
  | i, r :: rest, id =>
    let later := prioFrom (i + 1) rest id
    if later > 0 then later else if id = r then i + 1 else 0

/-- The priority of an id for a given recent-ids list (`priority[id]` in
`sortByRecent`; `0` means "not recent"). -/
def priorityOf (rids : List (List Char)) (id : List Char) : Nat :=
  prioFrom 0 rids id

/-- One pass of the inner `j` loop of `sortByRecent`'s exchange sort, with
`x` the element currently at position `i` and the list the elements at
positions `i+1 ..`: returns the final element at position `i` together with
the final contents of positions `i+1 ..`. -/
def innerLoop (key : Instance → Nat) : Instance → List Instance → Instance × List Instance
  | x, [] => (x, [])
  | x, y :: ys =>
    if key x > key y then
      let r := innerLoop key y ys
      (r.1, x :: r.2)
    else
      let r := innerLoop key x ys
      (r.1, y :: r.2)

/-- The nested-loop exchange sort of `sortByRecent`, written with a fuel
argument equal to the list length (the Go outer loop runs once per
position, and `innerLoop` preserves length, so the fuel never runs out). -/
def sortLoop (key : Instance → Nat) : Nat → List Instance → List Instance
  | 0, l => l
  | _ + 1, [] => []
  | n + 1, x :: xs =>
    let r := innerLoop key x xs
    r.1 :: sortLoop key n r.2

/-- The exchange sort applied to a whole list. -/
def exchangeSort (key : Instance → Nat) (l : List Instance) : List Instance :=
  sortLoop key l.length l

/-- Model of `sortByRecent`: split into recent (priority `> 0`) and other
instances, sort the recent ones by ascending priority with the exchange
sort, and append the others in input order. -/
def sortByRecent (insts : List Instance) (rids : List (List Char)) : List Instance :=
  let recent := insts.filter (fun i => priorityOf rids i.id > 0)
  let other := insts.filter (fun i => ¬ (priorityOf rids i.id > 0))
  exchangeSort (fun i => priorityOf rids i.id) recent ++ other

/-- The ranked, filtered view the picker loop displays: `SelectInstance`
sorts by recency once (only when `recentIDs` is non-empty) and applies
`filterInstances` with the live query on every iteration. -/
def rankAndFilter (insts : List Instance) (rids : List (List Char)) (q : List Char) :
    List Instance :=
  filterInstances (if rids = [] then insts else sortByRecent insts rids) q

/-- First position of an id in the recent-ids list (its recency rank). -/
def posIn : List (List Char) → List Char → Nat
  | [], _ => 0
  | r :: rest, id => if id = r then 0 else posIn rest id + 1

/-- The three candidates of the end-to-end scenarios. -/
def demo1 : Instance := ⟨"i-1".toList, "prod-web-1".toList, []⟩

/-- Second scenario candidate. -/
def demo2 : Instance := ⟨"i-2".toList, "prod-db-1".toList, []⟩

/-- Third scenario candidate. -/
def demo3 : Instance := ⟨"i-3".toList, "staging-web-1".toList, []⟩

/-- The scenario candidate list. -/
def demoCandidates : List Instance := [demo1, demo2, demo3]

/-- The mutable state of the `SelectInstance` event loop: the live query,
the byte cursor into it, and the highlighted row (`selected`, a Go `int`,
hence `Int` here). -/
structure PickerState where
  query : List Char
  cursor : Nat
  selected : Int
  deriving DecidableEq, Repr

/-- The initial picker state (`query := ""`, `cursor := 0`, `selected := 0`). -/
def initState : PickerState := ⟨[], 0, 0⟩

/-- The input events the `SelectInstance` switch handles. `enter` and
`escape` terminate the loop in the source and change no state; `otherKey`
stands for any key with no case in the switch; `up`/`down` also cover
Ctrl-P/Ctrl-N. -/
inductive PickerEvent where
  | enter | escape | up | down | left | right | backspace | del
  | ctrlU | ctrlA | ctrlE | rune (c : Char) | resize | otherKey
  deriving DecidableEq, Repr

/-- The clamp at the top of every loop iteration:
`if selected >= len(filtered) { selected = len(filtered) - 1 };
if selected < 0 { selected = 0 }`. -/
def clampSel (n : Nat) (sel : Int) : Int :=
  let s := if sel ≥ (n : Int) then (n : Int) - 1 else sel
  if s < 0 then 0 else s

/-- One iteration of the `SelectInstance` loop viewed as a state
transformer: recompute the filtered list, clamp `selected` (the value then
rendered and used by Enter), and apply the event's mutation. -/
def pickerStep (insts : List Instance) (s : PickerState) (e : PickerEvent) : PickerState :=
  let filtered := filterInstances insts s.query
  let sel := clampSel filtered.length s.selected
  match e with
  | .up => if sel > 0 then { s with selected := sel - 1 } else { s with selected := sel }
  | .down =>
    if sel < (filtered.length : Int) - 1 then { s with selected := sel + 1 }
    else { s with selected := sel }
  | .backspace =>
    if s.cursor > 0 then
      { s with query := s.query.take (s.cursor - 1) ++ s.query.drop s.cursor,
               cursor := s.cursor - 1, selected := sel }
    else { s with selected := sel }
  | .del =>
    if s.cursor < s.query.length then
      { s with query := s.query.take s.cursor ++ s.query.drop (s.cursor + 1), selected := sel }
    else { s with selected := sel }
  | .left =>
    if s.cursor > 0 then { s with cursor := s.cursor - 1, selected := sel }
    else { s with selected := sel }
  | .right =>
    if s.cursor < s.query.length then { s with cursor := s.cursor + 1, selected := sel }
    else { s with selected := sel }
  | .ctrlU => { s with query := s.query.drop s.cursor, cursor := 0, selected := sel }
  | .ctrlA => { s with cursor := 0, selected := sel }
  | .ctrlE => { s with cursor := s.query.length, selected := sel }
  | .rune c =>
    { s with query := s.query.take s.cursor ++ c :: s.query.drop s.cursor,
             cursor := s.cursor + 1, selected := 0 }
  | _ => { s with selected := sel }

/-- The picker state after a sequence of input events, starting from the
initial state. -/
def runPicker (insts : List Instance) (events : List PickerEvent) : PickerState :=
  events.foldl (pickerStep insts) initState

/-- The highlighted index the next iteration renders (and that Enter uses
to return `filtered[selected]`): the clamp applied to the stored value. -/
def renderSel (insts : List Instance) (s : PickerState) : Int :=
  clampSel (filterInstances insts s.query).length s.selected

/-- The command-invocation statuses of the SSM backend
(`ssmtypes.CommandInvocationStatus`). -/
inductive CmdStatus where
  | pending | inProgress | delayed | success | cancelled | timedOut | failed | cancelling
  deriving DecidableEq, Repr

/-- One `GetCommandInvocation` result: either a backend error (the
"command not yet registered" case) or a status with optional captured
stdout/stderr content. -/
inductive PollResult where
  | pollError
  | invocation (status : CmdStatus) (stdout stderr : Option (List Char))
  deriving DecidableEq, Repr

/-- Whether a poll result ends the `waitForCommandOutput` loop. -/
def isTerminalPoll : PollResult → Bool
  | .invocation .success _ _ => true
  | .invocation .failed _ _ => true
  | .invocation .timedOut _ _ => true
  | .invocation .cancelled _ _ => true
  | _ => false

/-- The outcome of a run of the polling loop: stderr-carrying failure with
its terminal status, or captured stdout. -/
abbrev PollOutcome := Except (CmdStatus × List Char) (List Char)

/-- The interval doubling of the loop: `pollInterval = min(pollInterval*2,
maxInterval)` with `maxInterval = 5s`, in milliseconds. -/
def nextInterval (i : Nat) : Nat := min (i * 2) 5000

/-- Model of the `waitForCommandOutput` loop run against a finite trace of
poll results: each iteration first waits `interval` (recorded in the first
component, in ms), then polls. A backend error or a non-terminal status
doubles the interval (capped at 5000 ms) and continues; `Success` returns
the captured stdout (empty when absent); `Failed`, `TimedOut` and
`Cancelled` return a failure carrying the captured stderr (empty when
absent or empty). `none` means the trace ended with the loop still
polling. -/
def runPolls : Nat → List PollResult → List Nat × Option PollOutcome
  | _, [] => ([], none)
  | i, .pollError :: rest =>
    let r := runPolls (nextInterval i) rest
    (i :: r.1, r.2)
  | i, .invocation .success out _ :: _ => ([i], some (.ok (out.getD [])))
  | i, .invocation .failed _ e :: _ => ([i], some (.error (.failed, e.getD [])))
  | i, .invocation .timedOut _ e :: _ => ([i], some (.error (.timedOut, e.getD [])))
  | i, .invocation .cancelled _ e :: _ => ([i], some (.error (.cancelled, e.getD [])))
  | i, .invocation .pending _ _ :: rest =>
    let r := runPolls (nextInterval i) rest
    (i :: r.1, r.2)
  | i, .invocation .inProgress _ _ :: rest =>
    let r := runPolls (nextInterval i) rest
    (i :: r.1, r.2)
  | i, .invocation .delayed _ _ :: rest =>
    let r := runPolls (nextInterval i) rest
    (i :: r.1, r.2)
  | i, .invocation .cancelling _ _ :: rest =>
    let r := runPolls (nextInterval i) rest
    (i :: r.1, r.2)

/-- `waitForCommandOutput` seeds the interval at 500 ms. -/
def waitForCommandOutput (polls : List PollResult) : List Nat × Option PollOutcome :=
  runPolls 500 polls

/-- The poll trace of end-to-end scenario 3: two `InProgress` checks, then
`Success` with stdout `"ok\n"`. -/
def scenario3Trace : List PollResult :=
  [ .invocation .inProgress none none,
    .invocation .inProgress none none,
    .invocation .success (some ("ok\n".toList)) none ]

/-- The upload size ceiling: `maxUploadSize = 100 * 1024` bytes. -/
def maxUploadSize : Nat := 100 * 1024

/-- The base64 alphabet of the standard encoding. -/
def base64Chars : List Char :=
  "ABCDEFGHIJKLMNOPQRSTUVWXYZabcdefghijklmnopqrstuvwxyz0123456789+/".toList

/-- The base64 digit of a 6-bit value. -/
def b64CharAt (n : Nat) : Char := base64Chars.getD n 'A'

/-- Standard base64 encoding (`base64.StdEncoding.EncodeToString`) of a
byte sequence, with `=` padding. -/
def base64Encode : List Nat → List Char
  | [] => []
  | [b0] => [b64CharAt (b0 / 4), b64CharAt (b0 % 4 * 16), '=', '=']
  | [b0, b1] => [b64CharAt (b0 / 4), b64CharAt (b0 % 4 * 16 + b1 / 16), b64CharAt (b1 % 16 * 4), '=']
  | b0 :: b1 :: b2 :: rest =>
    b64CharAt (b0 / 4) :: b64CharAt (b0 % 4 * 16 + b1 / 16) ::
      b64CharAt (b1 % 16 * 4 + b2 / 64) :: b64CharAt (b2 % 64) :: base64Encode rest

/-- The single-quote character of the generated shell script. -/
def quoteChar : Char := Char.ofNat 39

/-- What `UploadFile` does with the local payload: either the local size
rejection (taken before `SendCommand` is ever called, so nothing is
submitted and no remote state changes) or the submission of the
decode-and-write script. -/
inductive UploadOutcome where
  | sizeError (size : Nat)
  | submitted (script : List Char)
  deriving DecidableEq, Repr

/-- Model of the local part of `UploadFile`: reject when
`len(data) > maxUploadSize`, otherwise submit
`echo '<base64>' | base64 -d > '<remotePath>'`. -/
def uploadFile (data : List Nat) (remotePath : List Char) : UploadOutcome :=
  if data.length > maxUploadSize then .sizeError data.length
  else
    .submitted ("echo ".toList ++ [quoteChar] ++ base64Encode data ++ [quoteChar] ++
      " | base64 -d > ".toList ++ [quoteChar] ++ remotePath ++ [quoteChar])

lemma mem_filterInstances (insts : List Instance) (q : List Char) (inst : Instance) :
    inst ∈ filterInstances insts q ↔
      inst ∈ insts ∧ ∀ w ∈ fields (toLowerStr q), containsSub (searchStr inst) w = true := by
  unfold filterInstances
  by_cases hq : q = []
  · subst hq
    simp [fields, fieldsAux, toLowerStr]
  · simp only [if_neg hq]
    by_cases hw : fields (toLowerStr q) = []
    · simp [hw]
    · simp [hw, List.mem_filter, matchesAllWords, List.all_eq_true]

lemma space_isWhitespace : (' ').isWhitespace = true := by decide

lemma fieldsAux_append_space (b : List Char) :
    ∀ (a cur : List Char), fieldsAux cur (a ++ ' ' :: b) = fieldsAux cur a ++ fieldsAux [] b := by
  intro a
  induction a with
  | nil =>
    intro cur
    by_cases h : cur = [] <;> simp [fieldsAux, h, space_isWhitespace]
  | cons c a ih =>
    intro cur
    by_cases hc : c.isWhitespace
    · by_cases h : cur = [] <;> simp [fieldsAux, hc, h, ih]
    · simp [fieldsAux, hc, ih]

lemma fields_append_space (a b : List Char) :
    fields (a ++ ' ' :: b) = fields a ++ fields b :=
  fieldsAux_append_space b a []

lemma toLowerStr_append_space (q t : List Char) :
    toLowerStr (q ++ ' ' :: t) = toLowerStr q ++ ' ' :: toLowerStr t := by
  have h : Char.toLower ' ' = ' ' := by decide
  simp [toLowerStr, h]

lemma filterInstances_append_token_subset (insts : List Instance) (q t : List Char)
    (inst : Instance) (h : inst ∈ filterInstances insts (q ++ ' ' :: t)) :
    inst ∈ filterInstances insts q := by
  rw [mem_filterInstances] at h ⊢
  obtain ⟨hm, hw⟩ := h
  refine ⟨hm, fun w hwm => hw w ?_⟩
  rw [toLowerStr_append_space, fields_append_space]
  exact List.mem_append_left _ hwm

lemma toLower_of_isWhitespace (c : Char) (h : c.isWhitespace = true) : c.toLower = c := by
  have hc : ((c = ' ' ∨ c = '\t') ∨ c = '\r') ∨ c = '\n' := by
    simpa [Char.isWhitespace] using h
  rcases hc with ((h | h) | h) | h <;> subst h <;> decide

lemma toLowerStr_of_all_ws (q : List Char) (h : ∀ c ∈ q, c.isWhitespace = true) :
    toLowerStr q = q := by
  unfold toLowerStr
  rw [List.map_congr_left (fun c hc => toLower_of_isWhitespace c (h c hc))]
  exact List.map_id q

lemma fieldsAux_of_all_ws (q : List Char) (h : ∀ c ∈ q, c.isWhitespace = true) :
    fieldsAux [] q = [] := by
  induction q with
  | nil => simp [fieldsAux]
  | cons c cs ih =>
    have hc := h c (by simp)
    simp only [fieldsAux, hc, if_true, if_pos rfl]
    exact ih (fun d hd => h d (List.mem_cons_of_mem c hd))

/-- C1: for every candidate list and query, the filter keeps exactly the
candidates whose lowered search string (the concatenation of id, name and
private IP joined with single spaces) contains every lowered
whitespace-separated token of the query; and on the scenario-1 candidates
with query "prod web" the result is exactly the candidate with id "i-1". -/
theorem c1_filter_characterization :
    (∀ (insts : List Instance) (q : List Char) (inst : Instance),
      inst ∈ filterInstances insts q ↔
        inst ∈ insts ∧ ∀ w ∈ fields (toLowerStr q),
          containsSub (toLowerStr (inst.id ++ [' '] ++ inst.name ++ [' '] ++ inst.privateIP))
            w = true)
    ∧ (filterInstances demoCandidates ("prod web".toList)).map (fun i => i.id) =
        ["i-1".toList] := by
  constructor
  · intro insts q inst
    exact mem_filterInstances insts q inst
  · decide

/-- Witness for C1: the characterization instantiated on a concrete
candidate and query. -/
theorem c1_filter_characterization_witness :
    demo1 ∈ filterInstances demoCandidates ("prod web".toList) ↔
      demo1 ∈ demoCandidates ∧ ∀ w ∈ fields (toLowerStr ("prod web".toList)),
        containsSub (toLowerStr (demo1.id ++ [' '] ++ demo1.name ++ [' '] ++ demo1.privateIP))
          w = true :=
  c1_filter_characterization.1 demoCandidates ("prod web".toList) demo1

/-- C8: appending one extra whitespace-separated token to a query never
grows the match set: every instance passing the longer query passes the
shorter one. -/
theorem c8_extra_token_shrinks :
    ∀ (insts : List Instance) (q t : List Char), t ≠ [] →
      (∀ c ∈ t, c.isWhitespace = false) →
      ∀ inst ∈ filterInstances insts (q ++ ' ' :: t), inst ∈ filterInstances insts q := by
  intro insts q t _ _ inst h
  exact filterInstances_append_token_subset insts q t inst h

/-- Witness for C8: with the scenario candidates, query "prod" and extra
token "web", the sole match of "prod web" matches "prod". -/
theorem c8_extra_token_shrinks_witness :
    ("web".toList ≠ [] ∧ (∀ c ∈ "web".toList, c.isWhitespace = false)) ∧
      demo1 ∈ filterInstances demoCandidates ("prod".toList ++ ' ' :: "web".toList) ∧
      demo1 ∈ filterInstances demoCandidates ("prod".toList) :=
  ⟨⟨by decide, by decide⟩, by decide,
    c8_extra_token_shrinks demoCandidates ("prod".toList) ("web".toList)
      (by decide) (by decide) demo1 (by decide)⟩

/-- C9: a non-empty query made only of whitespace yields no tokens and the
filter passes the candidate list through unchanged, exactly like the empty
query. -/
theorem c9_whitespace_query_identity :
    ∀ (insts : List Instance) (q : List Char), q ≠ [] →
      (∀ c ∈ q, c.isWhitespace = true) → filterInstances insts q = insts := by
  intro insts q hne hws
  unfold filterInstances
  rw [if_neg hne]
  have hf : fields (toLowerStr q) = [] := by
    unfold fields
    rw [toLowerStr_of_all_ws q hws]
    exact fieldsAux_of_all_ws q hws
  simp [hf]

/-- Witness for C9: a two-character whitespace query on the scenario
candidates returns them unchanged. -/
theorem c9_whitespace_query_identity_witness :
    ([' ', '\t'] ≠ [] ∧ (∀ c ∈ [' ', '\t'], c.isWhitespace = true)) ∧
      filterInstances demoCandidates [' ', '\t'] = demoCandidates :=
  ⟨⟨by decide, by decide⟩,
    c9_whitespace_query_identity demoCandidates [' ', '\t'] (by decide) (by decide)⟩

lemma clampSel_bounds (n : Nat) (sel : Int) :
    (n = 0 → clampSel n sel = 0) ∧
      (0 < n → 0 ≤ clampSel n sel ∧ (clampSel n sel).toNat < n) := by
  dsimp only [clampSel]
  constructor
  · intro h
    subst h
    split_ifs <;> omega
  · intro h
    split_ifs <;> refine ⟨by omega, by omega⟩

/-- C7: after any sequence of picker input events, the highlighted index
the loop renders (and that Enter uses to index the filtered list) is a
valid index into the current filtered list when it is non-empty, and 0
when it is empty — never negative, never out of bounds. -/
theorem c7_highlight_invariant :
    ∀ (insts : List Instance) (events : List PickerEvent),
      (filterInstances insts (runPicker insts events).query = [] →
        renderSel insts (runPicker insts events) = 0)
      ∧ (filterInstances insts (runPicker insts events).query ≠ [] →
          0 ≤ renderSel insts (runPicker insts events) ∧
            (renderSel insts (runPicker insts events)).toNat <
              (filterInstances insts (runPicker insts events).query).length) := by
  intro insts events
  unfold renderSel
  constructor
  · intro h
    rw [h]
    exact (clampSel_bounds 0 (runPicker insts events).selected).1 rfl
  · intro h
    exact (clampSel_bounds _ _).2 (List.length_pos.mpr h)

/-- Witness for C7: a concrete run (type "p", move down, erase it) on the
scenario candidates leaves the highlight at a valid index. -/
theorem c7_highlight_invariant_witness :
    filterInstances demoCandidates
        (runPicker demoCandidates [.rune 'p', .down, .backspace]).query ≠ [] ∧
      0 ≤ renderSel demoCandidates (runPicker demoCandidates [.rune 'p', .down, .backspace]) ∧
        (renderSel demoCandidates
            (runPicker demoCandidates [.rune 'p', .down, .backspace])).toNat <
          (filterInstances demoCandidates
            (runPicker demoCandidates [.rune 'p', .down, .backspace]).query).length :=
  ⟨by decide,
    (c7_highlight_invariant demoCandidates [.rune 'p', .down, .backspace]).2 (by decide)⟩

/-- C10: backspace and delete never reset the highlight — they keep the
previously rendered value, which the next iteration merely clamps into the
bounds of the new filtered list; only printable-character insertion sets
the highlight back to 0. -/
theorem c10_delete_keeps_highlight :
    ∀ (insts : List Instance) (s : PickerState) (e : PickerEvent),
      ((e = PickerEvent.backspace ∨ e = PickerEvent.del) →
        (pickerStep insts s e).selected = renderSel insts s ∧
          renderSel insts (pickerStep insts s e) =
            clampSel (filterInstances insts (pickerStep insts s e).query).length
              (renderSel insts s))
      ∧ ∀ c, e = PickerEvent.rune c → (pickerStep insts s e).selected = 0 := by
  intro insts s e
  constructor
  · rintro (rfl | rfl)
    · have hsel : (pickerStep insts s PickerEvent.backspace).selected = renderSel insts s := by
        dsimp only [pickerStep]
        split <;> rfl
      exact ⟨hsel, by rw [renderSel, hsel]⟩
    · have hsel : (pickerStep insts s PickerEvent.del).selected = renderSel insts s := by
        dsimp only [pickerStep]
        split <;> rfl
      exact ⟨hsel, by rw [renderSel, hsel]⟩
  · intro c he
    subst he
    rfl

/-- Witness for C10: a backspace on a concrete state keeps the rendered
highlight, up to the clamp by the new filtered list. -/
theorem c10_delete_keeps_highlight_witness :
    (pickerStep demoCandidates ⟨"pr".toList, 2, 1⟩ PickerEvent.backspace).selected =
        renderSel demoCandidates ⟨"pr".toList, 2, 1⟩ ∧
      renderSel demoCandidates
          (pickerStep demoCandidates ⟨"pr".toList, 2, 1⟩ PickerEvent.backspace) =
        clampSel (filterInstances demoCandidates
            (pickerStep demoCandidates ⟨"pr".toList, 2, 1⟩ PickerEvent.backspace).query).length
          (renderSel demoCandidates ⟨"pr".toList, 2, 1⟩) :=
  (c10_delete_keeps_highlight demoCandidates ⟨"pr".toList, 2, 1⟩ PickerEvent.backspace).1
    (Or.inl rfl)

lemma runPolls_cons_nonterminal (i : Nat) (p : PollResult) (rest : List PollResult)
    (h : isTerminalPoll p = false) :
    runPolls i (p :: rest) =
      (i :: (runPolls (nextInterval i) rest).1, (runPolls (nextInterval i) rest).2) := by
  cases p with
  | pollError => rfl
  | invocation st out e =>
    cases st <;> first
      | rfl
      | simp [isTerminalPoll] at h

lemma runPolls_fst_cons_terminal (i : Nat) (p : PollResult) (rest : List PollResult)
    (h : isTerminalPoll p = true) : (runPolls i (p :: rest)).1 = [i] := by
  cases p with
  | pollError => simp [isTerminalPoll] at h
  | invocation st out e =>
    cases st <;> first
      | rfl
      | simp [isTerminalPoll] at h

lemma runPolls_snd_append (pre : List PollResult) :
    ∀ (i : Nat) (rest : List PollResult), (∀ q ∈ pre, isTerminalPoll q = false) →
      (runPolls i (pre ++ rest)).2 =
        (runPolls (pre.foldl (fun acc _ => nextInterval acc) i) rest).2 := by
  induction pre with
  | nil => intro i rest _; rfl
  | cons p pre ih =>
    intro i rest h
    rw [List.cons_append, runPolls_cons_nonterminal i p _ (h p (by simp))]
    exact ih (nextInterval i) rest (fun q hq => h q (by simp [hq]))

lemma runPolls_snd_none (polls : List PollResult) :
    ∀ i, (∀ p ∈ polls, isTerminalPoll p = false) → (runPolls i polls).2 = none := by
  induction polls with
  | nil => intro i _; rfl
  | cons p rest ih =>
    intro i h
    rw [runPolls_cons_nonterminal i p rest (h p (by simp))]
    exact ih (nextInterval i) (fun q hq => h q (by simp [hq]))

lemma runPolls_head_delay (i : Nat) (polls : List PollResult) :
    (runPolls i polls).1 = [] ∨ ∃ t, (runPolls i polls).1 = i :: t := by
  cases polls with
  | nil => exact Or.inl rfl
  | cons p rest =>
    by_cases h : isTerminalPoll p = true
    · exact Or.inr ⟨[], by rw [runPolls_fst_cons_terminal i p rest h]⟩
    · right
      rw [runPolls_cons_nonterminal i p rest (by simpa using h)]
      exact ⟨_, rfl⟩

lemma runPolls_delays (polls : List PollResult) :
    ∀ i, 500 ≤ i → i ≤ 5000 →
      List.Chain' (fun a b => b = min (a * 2) 5000) (runPolls i polls).1
      ∧ (∀ d ∈ (runPolls i polls).1, 500 ≤ d ∧ d ≤ 5000)
      ∧ List.Chain' (fun a b : Nat => a ≤ b) (runPolls i polls).1 := by
  induction polls with
  | nil => intro i _ _; exact ⟨List.chain'_nil, by simp [runPolls], List.chain'_nil⟩
  | cons p rest ih =>
    intro i h5 h5k
    by_cases hterm : isTerminalPoll p = true
    · rw [runPolls_fst_cons_terminal i p rest hterm]
      refine ⟨List.chain'_singleton _, ?_, List.chain'_singleton _⟩
      intro d hd
      have : d = i := by simpa using hd
      subst this
      exact ⟨h5, h5k⟩
    · rw [runPolls_cons_nonterminal i p rest (by simpa using hterm)]
      have hnext5 : 500 ≤ nextInterval i := by
        unfold nextInterval
        omega
      have hnext5k : nextInterval i ≤ 5000 := by
        unfold nextInterval
        omega
      obtain ⟨hc1, hmem, hc2⟩ := ih (nextInterval i) hnext5 hnext5k
      refine ⟨?_, ?_, ?_⟩
      · rw [List.chain'_cons']
        refine ⟨?_, hc1⟩
        intro b hb
        rcases runPolls_head_delay (nextInterval i) rest with hnil | ⟨t, ht⟩
        · rw [hnil] at hb
          simp at hb
        · rw [ht] at hb
          simp at hb
          subst hb
          rfl
      · intro d hd
        rcases List.mem_cons.mp hd with rfl | hd'
        · exact ⟨h5, h5k⟩
        · exact hmem d hd'
      · rw [List.chain'_cons']
        refine ⟨?_, hc2⟩
        intro b hb
        rcases runPolls_head_delay (nextInterval i) rest with hnil | ⟨t, ht⟩
        · rw [hnil] at hb
          simp at hb
        · rw [ht] at hb
          simp at hb
          subst hb
          unfold nextInterval
          omega

/-- C3: over any trace of poll results, the loop ends with the captured
stdout exactly on the first `Success` poll, ends with a failure carrying
the captured stderr exactly on the first `Failed`, `TimedOut` or
`Cancelled` poll, and no other poll outcome (backend error, `Pending`,
`InProgress`, `Delayed`, `Cancelling`) ever ends it. -/
theorem c3_terminal_statuses :
    ∀ polls : List PollResult,
      ((∀ p ∈ polls, isTerminalPoll p = false) → (waitForCommandOutput polls).2 = none)
      ∧ ∀ (pre : List PollResult) (p : PollResult) (post : List PollResult),
          polls = pre ++ p :: post → (∀ q ∈ pre, isTerminalPoll q = false) →
          isTerminalPoll p = true →
            (∀ out err, p = .invocation .success out err →
              (waitForCommandOutput polls).2 = some (.ok (out.getD [])))
            ∧ (∀ st out err, p = .invocation st out err →
                (st = .failed ∨ st = .timedOut ∨ st = .cancelled) →
                (waitForCommandOutput polls).2 = some (.error (st, err.getD []))) := by
  intro polls
  constructor
  · intro h
    exact runPolls_snd_none polls 500 h
  · intro pre p post heq hpre _
    subst heq
    unfold waitForCommandOutput
    rw [runPolls_snd_append pre 500 (p :: post) hpre]
    constructor
    · rintro out err rfl
      rfl
    · rintro st out err rfl (rfl | rfl | rfl) <;> rfl

/-- Witness for C3: a pending poll followed by a success resolves to the
captured stdout. -/
theorem c3_terminal_statuses_witness :
    (waitForCommandOutput
        [.invocation .pending none none,
         .invocation .success (some ("hi".toList)) none]).2 =
      some (.ok ("hi".toList)) :=
  ((c3_terminal_statuses _).2 [.invocation .pending none none]
      (.invocation .success (some ("hi".toList)) none) [] rfl (by decide) (by decide)).1
    (some ("hi".toList)) none rfl

/-- C4: across any run of the loop, the recorded waits start at 500 ms,
each following wait is the previous one doubled and capped at 5000 ms,
every wait lies in [500, 5000] ms, and the wait sequence is
non-decreasing. -/
theorem c4_backoff_monotone :
    ∀ polls : List PollResult,
      ((waitForCommandOutput polls).1 = [] ∨
        ((waitForCommandOutput polls).1).head? = some 500)
      ∧ List.Chain' (fun a b => b = min (a * 2) 5000) (waitForCommandOutput polls).1
      ∧ (∀ d ∈ (waitForCommandOutput polls).1, 500 ≤ d ∧ d ≤ 5000)
      ∧ List.Chain' (fun a b : Nat => a ≤ b) (waitForCommandOutput polls).1 := by
  intro polls
  unfold waitForCommandOutput
  obtain ⟨h1, h2, h3⟩ := runPolls_delays polls 500 (by omega) (by omega)
  refine ⟨?_, h1, h2, h3⟩
  rcases runPolls_head_delay 500 polls with h | ⟨t, ht⟩
  · exact Or.inl h
  · right
    rw [ht]
    rfl

/-- Witness for C4: on the scenario-3 trace the first wait is 500 ms and
the 2000 ms wait lies within the bounds. -/
theorem c4_backoff_monotone_witness :
    ((waitForCommandOutput scenario3Trace).1).head? = some 500 ∧
      500 ≤ 2000 ∧ 2000 ≤ 5000 :=
  ⟨(c4_backoff_monotone scenario3Trace).1.resolve_left (by decide),
    (c4_backoff_monotone scenario3Trace).2.2.1 2000 (by decide)⟩

/-- Counterexample for C5: on the scenario-3 trace the loop does return
stdout "ok\n", but the waits observed before the third check are not just
500 ms and 1000 ms — a third wait precedes the third check. -/
theorem c5_counterexample :
    (waitForCommandOutput scenario3Trace).2 = some (Except.ok ("ok\n".toList)) ∧
      (waitForCommandOutput scenario3Trace).1 ≠ [500, 1000] := by
  exact ⟨rfl, by decide⟩

/-- C5 as amended: on the scenario-3 trace the loop returns stdout "ok\n"
with no error, and the waits before the three checks are 500 ms, 1000 ms
and 2000 ms (the seed 500 ms wait precedes the first check). -/
theorem c5_amended_delays :
    (waitForCommandOutput scenario3Trace).2 = some (Except.ok ("ok\n".toList)) ∧
      (waitForCommandOutput scenario3Trace).1 = [500, 1000, 2000] :=
  ⟨rfl, rfl⟩

/-- C6: the upload path accepts any local payload of at most 100 KiB
(102400 bytes), in particular exactly 100 KiB, and proceeds to submit the
encoded script; any payload of 100 KiB + 1 byte or more is rejected with a
size error carrying the offending size, before any submission is built or
sent (the rejection is the first check of `UploadFile`, so no remote call
occurs and no remote state changes). -/
theorem c6_upload_size_gate :
    (∀ (data : List Nat) (path : List Char), data.length ≤ maxUploadSize →
      ∃ s, uploadFile data path = .submitted s)
    ∧ ∀ (data : List Nat) (path : List Char), maxUploadSize < data.length →
        uploadFile data path = .sizeError data.length := by
  constructor
  · intro data path h
    unfold uploadFile
    rw [if_neg (by omega)]
    exact ⟨_, rfl⟩
  · intro data path h
    unfold uploadFile
    rw [if_pos (by omega)]

/-- Witness for C6: a payload of exactly 102400 zero bytes is accepted and
one of 102401 bytes is rejected with its size. -/
theorem c6_upload_size_gate_witness :
    ((List.replicate 102400 (0 : Nat)).length ≤ maxUploadSize ∧
      ∃ s, uploadFile (List.replicate 102400 (0 : Nat)) ("/tmp/x".toList) = .submitted s)
    ∧ maxUploadSize < (List.replicate 102401 (0 : Nat)).length ∧
        uploadFile (List.replicate 102401 (0 : Nat)) ("/tmp/x".toList) =
          .sizeError (List.replicate 102401 (0 : Nat)).length := by
  have h1 : (List.replicate 102400 (0 : Nat)).length ≤ maxUploadSize := by
    rw [List.length_replicate]
    simp only [maxUploadSize]
    omega
  have h2 : maxUploadSize < (List.replicate 102401 (0 : Nat)).length := by
    rw [List.length_replicate]
    simp only [maxUploadSize]
    omega
  exact ⟨⟨h1, c6_upload_size_gate.1 _ _ h1⟩, h2, c6_upload_size_gate.2 _ _ h2⟩

lemma innerLoop_length (key : Instance → Nat) :
    ∀ (ys : List Instance) (x : Instance), (innerLoop key x ys).2.length = ys.length := by
  intro ys
  induction ys with
  | nil => intro x; rfl
  | cons y ys ih =>
    intro x
    unfold innerLoop
    split
    · simp [ih]
    · simp [ih]

lemma innerLoop_perm (key : Instance → Nat) :
    ∀ (ys : List Instance) (x : Instance),
      ((innerLoop key x ys).1 :: (innerLoop key x ys).2).Perm (x :: ys) := by
  intro ys
  induction ys with
  | nil => intro x; exact List.Perm.refl _
  | cons y ys ih =>
    intro x
    unfold innerLoop
    split
    · dsimp only
      exact (List.Perm.swap _ _ _).trans ((ih y).cons x)
    · dsimp only
      exact (List.Perm.swap _ _ _).trans (((ih x).cons y).trans (List.Perm.swap _ _ _))

lemma innerLoop_min (key : Instance → Nat) :
    ∀ (ys : List Instance) (x : Instance),
      key (innerLoop key x ys).1 ≤ key x ∧
        ∀ z ∈ (innerLoop key x ys).2, key (innerLoop key x ys).1 ≤ key z := by
  intro ys
  induction ys with
  | nil =>
    intro x
    exact ⟨le_rfl, by simp [innerLoop]⟩
  | cons y ys ih =>
    intro x
    unfold innerLoop
    split
    · rename_i hgt
      dsimp only
      obtain ⟨h1, h2⟩ := ih y
      refine ⟨le_trans h1 (le_of_lt hgt), ?_⟩
      intro z hz
      rcases List.mem_cons.mp hz with rfl | hz'
      · exact le_trans h1 (le_of_lt hgt)
      · exact h2 z hz'
    · rename_i hle
      dsimp only
      obtain ⟨h1, h2⟩ := ih x
      refine ⟨h1, ?_⟩
      intro z hz
      rcases List.mem_cons.mp hz with rfl | hz'
      · exact le_trans h1 (Nat.le_of_not_lt hle)
      · exact h2 z hz'

lemma sortLoop_perm (key : Instance → Nat) :
    ∀ (n : Nat) (l : List Instance), l.length ≤ n → (sortLoop key n l).Perm l := by
  intro n
  induction n with
  | zero => intro l _; exact List.Perm.refl _
  | succ n ih =>
    intro l hl
    cases l with
    | nil => exact List.Perm.refl _
    | cons x xs =>
      have hlen : (innerLoop key x xs).2.length ≤ n := by
        rw [innerLoop_length key xs x]
        simp only [List.length_cons] at hl
        omega
      show List.Perm ((innerLoop key x xs).1 :: sortLoop key n (innerLoop key x xs).2) (x :: xs)
      exact ((ih _ hlen).cons _).trans (innerLoop_perm key xs x)

lemma sortLoop_sorted (key : Instance → Nat) :
    ∀ (n : Nat) (l : List Instance), l.length ≤ n →
      (sortLoop key n l).Pairwise (fun a b => key a ≤ key b) := by
  intro n
  induction n with
  | zero =>
    intro l hl
    cases l with
    | nil => simp [sortLoop]
    | cons x xs => simp at hl
  | succ n ih =>
    intro l hl
    cases l with
    | nil => simp [sortLoop]
    | cons x xs =>
      have hlen : (innerLoop key x xs).2.length ≤ n := by
        rw [innerLoop_length key xs x]
        simp only [List.length_cons] at hl
        omega
      show ((innerLoop key x xs).1 :: sortLoop key n (innerLoop key x xs).2).Pairwise _
      rw [List.pairwise_cons]
      refine ⟨?_, ih _ hlen⟩
      intro z hz
      exact (innerLoop_min key xs x).2 z ((sortLoop_perm key n _ hlen).mem_iff.mp hz)

lemma exchangeSort_perm (key : Instance → Nat) (l : List Instance) :
    (exchangeSort key l).Perm l :=
  sortLoop_perm key l.length l le_rfl

lemma exchangeSort_sorted (key : Instance → Nat) (l : List Instance) :
    (exchangeSort key l).Pairwise (fun a b => key a ≤ key b) :=
  sortLoop_sorted key l.length l le_rfl

lemma filterInstances_append (a b : List Instance) (q : List Char) :
    filterInstances (a ++ b) q = filterInstances a q ++ filterInstances b q := by
  by_cases h1 : q = []
  · simp [filterInstances, h1]
  · by_cases h2 : fields (toLowerStr q) = []
    · simp [filterInstances, h1, h2]
    · simp [filterInstances, h1, h2]

lemma filterInstances_perm (a b : List Instance) (q : List Char) (h : a.Perm b) :
    (filterInstances a q).Perm (filterInstances b q) := by
  by_cases h1 : q = []
  · simpa [filterInstances, h1] using h
  · by_cases h2 : fields (toLowerStr q) = []
    · simpa [filterInstances, h1, h2] using h
    · simpa [filterInstances, h1, h2] using h.filter _

lemma filterInstances_sublist (a : List Instance) (q : List Char) :
    (filterInstances a q).Sublist a := by
  by_cases h1 : q = []
  · simp [filterInstances, h1]
  · by_cases h2 : fields (toLowerStr q) = []
    · simp [filterInstances, h1, h2]
    · simp only [filterInstances, h1, h2, if_neg, if_false]
      exact List.filter_sublist a

lemma filterInstances_filter (a : List Instance) (p : Instance → Bool) (q : List Char) :
    filterInstances (a.filter p) q = (filterInstances a q).filter p := by
  by_cases h1 : q = []
  · simp [filterInstances, h1]
  · by_cases h2 : fields (toLowerStr q) = []
    · simp [filterInstances, h1, h2]
    · simp only [filterInstances, h1, h2, if_neg, if_false]
      rw [List.filter_filter, List.filter_filter]
      exact List.filter_congr (fun x _ => Bool.and_comm _ _)

lemma prioFrom_pos_iff (rids : List (List Char)) :
    ∀ (i : Nat) (id : List Char), 0 < prioFrom i rids id ↔ id ∈ rids := by
  induction rids with
  | nil => intro i id; simp [prioFrom]
  | cons r rest ih =>
    intro i id
    unfold prioFrom
    dsimp only
    by_cases hl : 0 < prioFrom (i + 1) rest id
    · rw [if_pos (by omega)]
      exact ⟨fun _ => List.mem_cons_of_mem r ((ih (i + 1) id).mp hl),
        fun _ => hl⟩
    · rw [if_neg (by omega)]
      have hrest : id ∉ rest := fun hm => hl ((ih (i + 1) id).mpr hm)
      by_cases hid : id = r
      · subst hid
        rw [if_pos rfl]
        simp only [List.mem_cons, true_or, iff_true]
        omega
      · rw [if_neg hid]
        simp [List.mem_cons, hid, hrest]

lemma prioFrom_eq_zero_of_not_mem (rids : List (List Char)) (i : Nat) (id : List Char)
    (h : id ∉ rids) : prioFrom i rids id = 0 := by
  by_contra hne
  exact h ((prioFrom_pos_iff rids i id).mp (Nat.pos_of_ne_zero hne))

lemma prioFrom_nodup_eq (rids : List (List Char)) :
    ∀ (i : Nat) (id : List Char), rids.Nodup → id ∈ rids →
      prioFrom i rids id = i + posIn rids id + 1 := by
  induction rids with
  | nil => intro i id _ hm; simp at hm
  | cons r rest ih =>
    intro i id hnd hm
    obtain ⟨hr, hndr⟩ := List.nodup_cons.mp hnd
    unfold prioFrom posIn
    dsimp only
    by_cases hid : id = r
    · subst hid
      rw [prioFrom_eq_zero_of_not_mem rest (i + 1) id hr, if_neg (by omega),
        if_pos rfl, if_pos rfl]
    · have hmr : id ∈ rest := by
        rcases List.mem_cons.mp hm with h | h
        · exact absurd h hid
        · exact h
      rw [ih (i + 1) id hndr hmr, if_pos (by omega), if_neg hid]
      omega

lemma sortByRecent_eq (insts : List Instance) (rids : List (List Char)) :
    sortByRecent insts rids =
      exchangeSort (fun i => priorityOf rids i.id)
          (insts.filter (fun i => priorityOf rids i.id > 0)) ++
        insts.filter (fun i => ¬ (priorityOf rids i.id > 0)) := rfl

/-- C2: the ranked view puts the matching recent candidates first, in a
block that is a permutation of the recent matches arranged in
non-decreasing order of their position in the (deduplicated) recency
list, followed by exactly the non-recent matches in their original input
order; and scenario 2 (recent id "i-3", empty query) ranks the candidates
as i-3, i-1, i-2. -/
theorem c2_recency_ranking :
    (∀ (insts : List Instance) (rids : List (List Char)) (q : List Char), rids.Nodup →
      ∃ R, rankAndFilter insts rids q =
          R ++ (filterInstances insts q).filter (fun i => ¬ (i.id ∈ rids))
        ∧ R.Perm ((filterInstances insts q).filter (fun i => i.id ∈ rids))
        ∧ R.Pairwise (fun a b => posIn rids a.id ≤ posIn rids b.id))
    ∧ (rankAndFilter demoCandidates ["i-3".toList] []).map (fun i => i.id) =
        ["i-3".toList, "i-1".toList, "i-2".toList] := by
  constructor
  · intro insts rids q hnd
    by_cases hr : rids = []
    · subst hr
      refine ⟨[], ?_, ?_, List.Pairwise.nil⟩
      · unfold rankAndFilter
        rw [if_pos rfl]
        simp
      · simp
    · refine ⟨filterInstances (exchangeSort (fun i => priorityOf rids i.id)
        (insts.filter (fun i => priorityOf rids i.id > 0))) q, ?_, ?_, ?_⟩
      · unfold rankAndFilter
        rw [if_neg hr, sortByRecent_eq, filterInstances_append]
        congr 1
        rw [filterInstances_filter]
        refine List.filter_congr (fun x _ => ?_)
        exact decide_eq_decide.mpr (not_congr (prioFrom_pos_iff rids 0 x.id))
      · refine (filterInstances_perm _ _ q (exchangeSort_perm _ _)).trans ?_
        rw [filterInstances_filter]
        refine List.Perm.of_eq (List.filter_congr (fun x _ => ?_))
        exact decide_eq_decide.mpr (prioFrom_pos_iff rids 0 x.id)
      · have hsub := filterInstances_sublist (exchangeSort (fun i => priorityOf rids i.id)
          (insts.filter (fun i => priorityOf rids i.id > 0))) q
        have hpair := List.Pairwise.sublist hsub
          (exchangeSort_sorted (fun i => priorityOf rids i.id)
            (insts.filter (fun i => priorityOf rids i.id > 0)))
        have hmemR : ∀ x ∈ filterInstances (exchangeSort (fun i => priorityOf rids i.id)
            (insts.filter (fun i => priorityOf rids i.id > 0))) q, x.id ∈ rids := by
          intro x hx
          have hx3 := (exchangeSort_perm _ _).mem_iff.mp (hsub.subset hx)
          have hx4 := (List.mem_filter.mp hx3).2
          exact (prioFrom_pos_iff rids 0 x.id).mp (by simpa using hx4)
        refine hpair.imp_of_mem ?_
        intro a b ha hb hab
        have ha' := prioFrom_nodup_eq rids 0 a.id hnd (hmemR a ha)
        have hb' := prioFrom_nodup_eq rids 0 b.id hnd (hmemR b hb)
        simp only [priorityOf] at hab
        omega
  · decide

/-- Witness for C2: the general ranking statement instantiated on the
scenario-2 inputs, whose recency list is duplicate-free. -/
theorem c2_recency_ranking_witness :
    (["i-3".toList] : List (List Char)).Nodup ∧
      ∃ R, rankAndFilter demoCandidates ["i-3".toList] [] =
          R ++ (filterInstances demoCandidates []).filter
            (fun i => ¬ (i.id ∈ (["i-3".toList] : List (List Char))))
        ∧ R.Perm ((filterInstances demoCandidates []).filter
            (fun i => i.id ∈ (["i-3".toList] : List (List Char))))
        ∧ R.Pairwise (fun a b => posIn ["i-3".toList] a.id ≤ posIn ["i-3".toList] b.id) :=
  ⟨by decide, c2_recency_ranking.1 demoCandidates ["i-3".toList] [] (by decide)⟩

end AwsSsmConnect
